import Mathlib

/-!
Shallow embedding of `projects/vi_dln/vi_main.py` (deep-language-networks),
the variational-inference prompt-training driver, together with theorems
settling the stated properties of its validation cache, checkpoint/patience
logic, penalty schedule, accuracy arithmetic, cost scoping and prompt
initialization.

Numeric values (accuracies, penalties, costs) are modelled as rationals.
External collaborators (the dataset, the generation backend, `VILModel`) are
abstracted as oracle functions; parts of the repository that are imported by
`vi_main.py` but are not in the sources at hand (`VILModel.forward`,
`isolated_cost`) are modelled from the specification and marked as such.
-/

namespace ViDln

/-- Python's `str.endswith(suffix)`, over the character-list model of strings. -/
def endsWithStr (s suf : String) : Bool :=
  suf.data.isSuffixOf s.data

/-- Python truthiness of an optional string: `None` and `""` are falsy. -/
def strTruthy : Option String → Bool
  | none => false
  | some s => !s.data.isEmpty

/-- Embedding of `init_prompts` (vi_main.py lines 29-60).  File access is
abstracted: `jsonBest path` is the value
`json.load(open(path))[dataset.dataset_name]["best_weights"]`, and
`logBest path` is the parsed tail of the first "Best L2 weights:" line of a
log file (`none` when no such line exists, in which case the Python code
raises `ValueError`, modelled as the `none` result). -/
def init_prompts (instruction : String) (jsonBest : String → String)
    (logBest : String → Option String) (init_p1 init_p2 : Option String) :
    Option (String × String) :=
  let branch : Option (Option String × Option String) :=
    if strTruthy init_p1 && endsWithStr (init_p1.getD "") ".json" then
      some (some (jsonBest (init_p1.getD "")), init_p2)
    else if strTruthy init_p2 && endsWithStr (init_p2.getD "") ".json" then
      some (init_p1, some (jsonBest (init_p2.getD "")))
    else if strTruthy init_p2 && endsWithStr (init_p2.getD "") ".log" then
      match logBest (init_p2.getD "") with
      | some w => some (init_p1, some w)
      | none => none
    else
      some (init_p1, init_p2)
  match branch with
  | none => none
  | some (q1, q2) => some (q1.getD "", q2.getD instruction)

/-- The validation-cache key, `"{}-{}".format(w1, w2)` (vi_main.py line 68). -/
def valKey (w1 w2 : String) : String :=
  w1 ++ "-" ++ w2

/-- One step of the accumulation `acc += len(y) - np.sum(losses); tot += len(y)`
(vi_main.py lines 89-90): the pair carries `(acc, tot)`. -/
def batchStep (p : ℚ × ℚ) (losses : List ℚ) : ℚ × ℚ :=
  (p.1 + ((losses.length : ℚ) - losses.sum), p.2 + (losses.length : ℚ))

/-- The `(acc, tot)` accumulated over all dev batches, starting from `(0, 0)`
(vi_main.py lines 73-98); each inner list is one batch's per-example losses. -/
def accTot (batches : List (List ℚ)) : ℚ × ℚ :=
  batches.foldl batchStep (0, 0)

/-- `dev_acc = acc / tot` (vi_main.py line 102). -/
def devAccOf (batches : List (List ℚ)) : ℚ :=
  (accTot batches).1 / (accTot batches).2

/-- The mutable state touched by `validate`: the `val_scores` dict (modelled as
an association list with most-recent insertion first) and a count of how many
times the full dev-evaluation loop (the Operator-cost-incurring branch) ran. -/
structure ValState where
  val_scores : List (String × ℚ)
  evals : ℕ
deriving Repr, DecidableEq

/-- Embedding of `validate` (vi_main.py lines 63-109).  The per-batch losses
produced by evaluating the model with weights `(w1, w2)` on the dev set are
abstracted as the oracle `lossBatches w1 w2`; the cached branch returns the
stored accuracy and leaves the state untouched, the other branch runs the
evaluation loop, counts one evaluation and stores the result. -/
def validate (lossBatches : String → String → List (List ℚ)) (w1 w2 : String)
    (s : ValState) : ℚ × ValState :=
  let key := valKey w1 w2
  match s.val_scores.lookup key with
  | some v => (v, s)
  | none =>
    let dev_acc := devAccOf (lossBatches w1 w2)
    (dev_acc, ⟨(key, dev_acc) :: s.val_scores, s.evals + 1⟩)

/-- The Operator's running cost counter (`forward_evaluate.total_cost`). -/
structure OpState where
  total_cost : ℚ
deriving Repr, DecidableEq

/-- One Operator call adding `c` to the running cost counter. -/
def opCall (c : ℚ) (s : OpState) : OpState :=
  ⟨s.total_cost + c⟩

/-- The Operator calls issued during a span, each adding its cost. -/
def runSpan (costs : List ℚ) (s : OpState) : OpState :=
  costs.foldl (fun st c => opCall c st) s

/-- Modelled from the spec: `isolated_cost` is imported from `dln.operator`,
which is not among the sources at hand.  Per spec section 5, the context
captures the Operator's call-cost delta across its span without mutating the
global counter: at entry the counter is saved and zeroed for the span, the
body's reading of the counter therefore sees only in-span cost, and at exit
the saved counter is restored.  (The call site in `test` passes
`add_cost_to_total=True`, a flag the spec does not describe; it is not
modelled.) -/
def isolated_cost (body : OpState → ℚ × OpState) (s : OpState) : ℚ × OpState :=
  let saved := s.total_cost
  let r := body ⟨0⟩
  (r.1, ⟨saved⟩)

/-- Embedding of `test` (vi_main.py lines 112-144): inside the isolated-cost
context the test batches are evaluated (each Operator call cost listed in
`callCosts`) and `test_cost` is read from the Operator's counter while still
inside the span (line 133).  Returns `(test_acc, test_cost, Operator state
after the context exits)`. -/
def testPhase (lossBatches : List (List ℚ)) (callCosts : List ℚ)
    (s : OpState) : ℚ × ℚ × OpState :=
  let r := isolated_cost (fun st =>
    let st1 := runSpan callCosts st
    (st1.total_cost, st1)) s
  (devAccOf lossBatches, r.1, r.2)

/-- The configuration options of `main` that the training loop reads. -/
structure Config where
  iters : ℕ
  val_freq : ℕ
  tolerance : ℤ
  n_shots : ℤ
  do_first_eval : Bool
  do_zero_shot : Bool
  cost_only : Bool
  train_p1 : Bool
  train_p2 : Bool
  one_layer : Bool
  logp_penalty : ℚ
  decay_logp_penalty : Bool
deriving Repr, DecidableEq

/-- The mutable state of `main`'s training loop (vi_main.py lines 506-616):
the two layer weights, the best-checkpoint bookkeeping, the patience counter
and the model's current `logp_penalty`.  Two ghost traces record, for the
theorems, every value layer-1's weight takes (`w1Trace`) and the penalty in
effect at each executed `model.forward` training call (`penaltyTrace`). -/
structure LoopState where
  w1 : String
  w2 : String
  best_dev : ℚ
  best_ps : String × String
  patience : ℕ
  logp_penalty_cur : ℚ
  penaltyTrace : List (ℕ × ℚ)
  w1Trace : List String
deriving Repr, DecidableEq

/-- The state right before the loop (vi_main.py lines 506-512): the layer
weights hold the initial prompts (the `VILModel` constructor stores
`init_p1`/`init_p2` as the encoders' weights), `best_dev = 0.0`, `best_ps`
holds the current weights, `patience = 0`, and the model's penalty is the
configured `logp_penalty`. -/
def initState (cfg : Config) (init_p1 init_p2 : String) : LoopState :=
  { w1 := init_p1
    w2 := init_p2
    best_dev := 0
    best_ps := (init_p1, init_p2)
    patience := 0
    logp_penalty_cur := cfg.logp_penalty
    penaltyTrace := []
    w1Trace := [init_p1] }

/-- Assigning both layer weights (vi_main.py lines 570-571 and 609-610). -/
def setWeights (p1 p2 : String) (s : LoopState) : LoopState :=
  { s with w1 := p1, w2 := p2, w1Trace := s.w1Trace ++ [p1] }

/-- The checkpoint/patience update performed after each validation
(vi_main.py lines 525-541): a new best records the score and the current
weight pair and resets patience, otherwise patience is incremented; then, if
`tolerance >= 0 and patience >= tolerance`, both weights are loaded back from
`best_ps` and patience resets to 0. -/
def ckptStep (tolerance : ℤ) (d : ℚ) (s : LoopState) : LoopState :=
  let s1 :=
    if s.best_dev < d then
      { s with best_dev := d, best_ps := (s.w1, s.w2), patience := 0 }
    else
      { s with patience := s.patience + 1 }
  if 0 ≤ tolerance ∧ tolerance ≤ (s1.patience : ℤ) then
    { s1 with
      w1 := s1.best_ps.1
      w2 := s1.best_ps.2
      patience := 0
      w1Trace := s1.w1Trace ++ [s1.best_ps.1] }
  else
    s1

/-- Modelled from the spec: the prompt pair returned by `VILModel.forward`
(from `dln.vi.model`, not among the sources at hand), abstracted as the
oracle `raw`.  Per spec sections 3 and 8, in single-layer mode only layer 2
exists as a trainable layer, so the returned `p1` is the current layer-1
weight, unchanged; in two-layer mode both returned prompts are oracle
values. -/
def modelForwardPrompts (one_layer : Bool)
    (raw : ℕ → String → String → String × String) (t : ℕ) (w1 w2 : String) :
    String × String :=
  if one_layer then (w1, (raw t w1 w2).2) else raw t w1 w2

/-- The training part of one loop iteration (vi_main.py lines 556-571): when
`decay_logp_penalty` is set, `model.logp_penalty = logp_penalty * (1.0 -
iteration / iters)`; then `model.forward` proposes prompts and both weights
are updated.  The penalty in effect at this `model.forward` call is recorded
in the ghost trace. -/
def trainPhase (cfg : Config) (raw : ℕ → String → String → String × String)
    (t : ℕ) (s : LoopState) : LoopState :=
  let pen := if cfg.decay_logp_penalty then
      cfg.logp_penalty * (1 - (t : ℚ) / (cfg.iters : ℚ))
    else
      s.logp_penalty_cur
  let p := modelForwardPrompts cfg.one_layer raw t s.w1 s.w2
  setWeights p.1 p.2
    { s with
      logp_penalty_cur := pen
      penaltyTrace := s.penaltyTrace ++ [(t, pen)] }

/-- The validation gate (vi_main.py line 516):
`(iteration == 0 and do_first_eval) or (iteration > 0 and iteration % val_freq == 0)`. -/
def valCond (cfg : Config) (t : ℕ) : Bool :=
  (t == 0 && cfg.do_first_eval) || (decide (0 < t) && t % cfg.val_freq == 0)

/-- The loop's break condition (vi_main.py line 553):
`do_zero_shot or iteration == iters or cost_only or (n_shots >= 0 and not train_p1 and not train_p2)`. -/
def breakCond (cfg : Config) (t : ℕ) : Bool :=
  cfg.do_zero_shot || t == cfg.iters || cfg.cost_only ||
    (decide (0 ≤ cfg.n_shots) && !cfg.train_p1 && !cfg.train_p2)

/-- The body of `for iteration in range(iters + 1)` (vi_main.py lines
513-604) over the remaining list of iteration indices: validate (score
abstracted as `devScore t`) and update the checkpoint state when the gate
holds, stop when the break condition holds, otherwise train and continue. -/
def runIters (cfg : Config) (devScore : ℕ → ℚ)
    (raw : ℕ → String → String → String × String) :
    List ℕ → LoopState → LoopState
  | [], s => s
  | t :: ts, s =>
    let s1 := if valCond cfg t then ckptStep cfg.tolerance (devScore t) s else s
    if breakCond cfg t then s1
    else runIters cfg devScore raw ts (trainPhase cfg raw t s1)

/-- The whole training loop of `main`, from the initial state over iteration
indices `0, 1, ..., iters`. -/
def runLoop (cfg : Config) (devScore : ℕ → ℚ)
    (raw : ℕ → String → String → String × String)
    (init_p1 init_p2 : String) : LoopState :=
  runIters cfg devScore raw (List.range (cfg.iters + 1)) (initState cfg init_p1 init_p2)

/-- `main` after the loop (vi_main.py lines 606-616): both weights are loaded
back from `best_ps` before `test` is called; the returned state's `w1`/`w2`
are the weights the final test evaluation runs with. -/
def mainRun (cfg : Config) (devScore : ℕ → ℚ)
    (raw : ℕ → String → String → String × String)
    (init_p1 init_p2 : String) : LoopState :=
  let sL := runLoop cfg devScore raw init_p1 init_p2
  setWeights sL.best_ps.1 sL.best_ps.2 sL

theorem accTot_foldl (bs : List (List ℚ)) : ∀ p : ℚ × ℚ,
    bs.foldl batchStep p =
      (p.1 + (((bs.map fun b => ((b.length : ℚ)))).sum - (bs.map List.sum).sum),
       p.2 + ((bs.map fun b => ((b.length : ℚ)))).sum) := by
  induction bs with
  | nil => intro p; simp
  | cons b bs ih =>
    intro p
    simp only [List.foldl_cons, List.map_cons, List.sum_cons, ih, batchStep]
    rw [Prod.mk.injEq]
    constructor <;> ring

/-- C6: the reported accuracy over the examples seen so far equals
`(N - sum of per-example losses) / N` where `N` is the number of examples
seen; in particular one batch of 3 examples with losses `[0, 1, 0]` reports
accuracy `2/3`. -/
theorem batch_accuracy_arithmetic :
    (∀ bs : List (List ℚ), accTot bs =
      ((((bs.map fun b => ((b.length : ℚ)))).sum - (bs.map List.sum).sum),
        ((bs.map fun b => ((b.length : ℚ)))).sum)) ∧
    (∀ bs : List (List ℚ), devAccOf bs =
      ((((bs.map fun b => ((b.length : ℚ)))).sum - (bs.map List.sum).sum) /
        ((bs.map fun b => ((b.length : ℚ)))).sum)) ∧
    devAccOf [[0, 1, 0]] = 2 / 3 := by
  refine ⟨fun bs => ?_, fun bs => ?_, ?_⟩
  · rw [accTot, accTot_foldl]
    norm_num
  · rw [devAccOf, accTot, accTot_foldl]
    norm_num
  · norm_num [devAccOf, accTot, batchStep]

/-- C1: the validation cache is idempotent.  For any weight pair, running
`validate` a second time with the same pair returns the value produced by
the first run and leaves the state (cache contents and evaluation count)
unchanged, so the second validation performs no dev-set evaluation loop and
incurs zero additional Operator cost; across both calls the dev accuracy is
computed at most once. -/
theorem validate_cache_idempotent
    (lossBatches : String → String → List (List ℚ)) (w1 w2 : String)
    (s : ValState) :
    (validate lossBatches w1 w2 (validate lossBatches w1 w2 s).2).1 =
      (validate lossBatches w1 w2 s).1 ∧
    (validate lossBatches w1 w2 (validate lossBatches w1 w2 s).2).2 =
      (validate lossBatches w1 w2 s).2 ∧
    (validate lossBatches w1 w2 s).2.evals ≤ s.evals + 1 := by
  cases h : s.val_scores.lookup (valKey w1 w2) with
  | some v => simp [validate, h]
  | none => simp [validate, h, List.lookup]

theorem runSpan_total (costs : List ℚ) : ∀ a : ℚ,
    (runSpan costs ⟨a⟩).total_cost = a + costs.sum := by
  induction costs with
  | nil => intro a; simp [runSpan]
  | cons c cs ih =>
    intro a
    simp only [runSpan, List.foldl_cons, opCall] at ih ⊢
    rw [ih, List.sum_cons]
    ring

/-- C8: the test evaluation runs inside the isolated-cost context, which
measures exactly the test phase's Operator call-cost delta (the sum of the
costs of the calls issued within the span) while the Operator's global cost
counter, as restored after the context, is unchanged from its value when
training ended. -/
theorem test_isolated_cost_scoped (lossBatches : List (List ℚ))
    (callCosts : List ℚ) (g : ℚ) :
    (testPhase lossBatches callCosts ⟨g⟩).2.1 = callCosts.sum ∧
    (testPhase lossBatches callCosts ⟨g⟩).2.2.total_cost = g := by
  constructor
  · simp [testPhase, isolated_cost, runSpan_total]
  · simp [testPhase, isolated_cost]

/-- A concrete dev-loss oracle for the key-collision counterexample: the
pair with first weight `"a-b"` has every example correct, any other pair has
every example wrong. -/
def lbCex : String → String → List (List ℚ) :=
  fun w1 _ => if w1 = "a-b" then [[0]] else [[1]]

/-- C2 counterexample: the key `"{}-{}".format(w1, w2)` does not identify the
exact pair.  The distinct pairs `("a-b", "c")` and `("a", "b-c")` share the
key `"a-b-c"`, so after `("a-b", "c")` (true accuracy 1) is cached, a
validation of `("a", "b-c")` (true accuracy 0) returns the cached accuracy 1
of the other pair, without running any evaluation. -/
theorem valKey_collision :
    valKey "a-b" "c" = valKey "a" "b-c" ∧
    (("a-b", "c") : String × String) ≠ ("a", "b-c") ∧
    (validate lbCex "a" "b-c" (validate lbCex "a-b" "c" ⟨[], 0⟩).2).1 = 1 ∧
    devAccOf (lbCex "a" "b-c") = 0 ∧
    (validate lbCex "a" "b-c" (validate lbCex "a-b" "c" ⟨[], 0⟩).2).2.evals = 1 := by
  have h1 : validate lbCex "a-b" "c" ⟨[], 0⟩ =
      (1, ⟨[(valKey "a-b" "c", 1)], 1⟩) := by
    have hv : devAccOf (lbCex "a-b" "c") = 1 := by
      norm_num [lbCex, devAccOf, accTot, batchStep]
    simp [validate, List.lookup, hv]
  have h2 : valKey "a" "b-c" = valKey "a-b" "c" := by decide
  refine ⟨by decide, by decide, ?_, ?_, ?_⟩
  · rw [h1]
    simp [validate, List.lookup, h2]
  · have hab : ("a" : String) ≠ "a-b" := by decide
    norm_num [lbCex, devAccOf, accTot, batchStep, hab]
  · rw [h1]
    simp [validate, List.lookup, h2]

theorem append_sep_inj : ∀ (l1 l1' l2 l2' : List Char), '-' ∉ l1 → '-' ∉ l1' →
    l1 ++ '-' :: l2 = l1' ++ '-' :: l2' → l1 = l1' ∧ l2 = l2' := by
  intro l1
  induction l1 with
  | nil =>
    intro l1' l2 l2' _ h1' h
    cases l1' with
    | nil => simpa using h
    | cons b bs =>
      rw [List.nil_append, List.cons_append, List.cons.injEq] at h
      exact absurd (h.1 ▸ List.mem_cons_self b bs) h1'
  | cons a as ih =>
    intro l1' l2 l2' h1 h1' h
    cases l1' with
    | nil =>
      rw [List.cons_append, List.nil_append, List.cons.injEq] at h
      exact absurd (h.1 ▸ List.mem_cons_self a as) h1
    | cons b bs =>
      rw [List.cons_append, List.cons_append, List.cons.injEq] at h
      have htl := ih bs l2 l2'
        (fun hm => h1 (List.mem_cons_of_mem a hm))
        (fun hm => h1' (List.mem_cons_of_mem b hm)) h.2
      exact ⟨by rw [h.1, htl.1], htl.2⟩

theorem valKey_data (w1 w2 : String) :
    (valKey w1 w2).data = w1.data ++ '-' :: w2.data := by
  cases w1 with
  | mk d1 =>
    cases w2 with
    | mk d2 =>
      show (d1 ++ ['-']) ++ d2 = d1 ++ '-' :: d2
      simp

/-- C2 (amended): the cache key is the concatenation `w1 ++ "-" ++ w2`, so
it identifies the pair only away from separator collisions: any two distinct
weight pairs whose first components contain no `'-'` character receive
distinct keys, while pairs with `'-'` inside a weight can collide and then
share a single cached accuracy entry. -/
theorem valKey_inj_of_sep_free (w1 w2 w1' w2' : String)
    (h1 : '-' ∉ w1.data) (h1' : '-' ∉ w1'.data)
    (hk : valKey w1 w2 = valKey w1' w2') : w1 = w1' ∧ w2 = w2' := by
  have hd := congrArg String.data hk
  rw [valKey_data, valKey_data] at hd
  have h := append_sep_inj w1.data w1'.data w2.data w2'.data h1 h1' hd
  refine ⟨?_, ?_⟩
  · cases w1; cases w1'; exact congrArg String.mk h.1
  · cases w2; cases w2'; exact congrArg String.mk h.2

/-- Witness for the amended C2 theorem at a concrete hyphen-free input. -/
theorem valKey_inj_of_sep_free_witness :
    ('-' ∉ "a".data) ∧ ("a" : String) = "a" ∧ ("b" : String) = "b" := by
  have h := valKey_inj_of_sep_free "a" "b" "a" "b" (by decide) (by decide) rfl
  exact ⟨by decide, h.1, h.2⟩

/-- C10: when `init_p1` is a path ending in `".json"`, the `elif` chain of
`init_prompts` never loads `init_p2` from a file, whatever `init_p2` looks
like: `init_p1` becomes the loaded best weights and `init_p2` is used
verbatim, or defaults to the dataset instruction when it is `None`. -/
theorem init_p1_json_precedence (instruction : String)
    (jsonBest : String → String) (logBest : String → Option String)
    (s : String) (p2 : Option String) (h : endsWithStr s ".json" = true) :
    init_prompts instruction jsonBest logBest (some s) p2 =
      some (jsonBest s, p2.getD instruction) := by
  have hne : s.data.isEmpty = false := by
    rcases hd : s.data with _ | ⟨c, cs⟩
    · rw [endsWithStr, hd] at h
      exact absurd h (by decide)
    · simp
  simp [init_prompts, strTruthy, h, hne]

/-- Witness for C10 at a concrete input where both arguments end in ".json". -/
theorem init_p1_json_precedence_witness :
    init_prompts "I" (fun p => "best:" ++ p) (fun _ => none)
      (some "w.json") (some "x.json") = some ("best:w.json", "x.json") := by
  exact init_p1_json_precedence "I" (fun p => "best:" ++ p) (fun _ => none)
    "w.json" (some "x.json") (by decide)

theorem ckptStep_improve (tol : ℤ) (d : ℚ) (s : LoopState)
    (h : s.best_dev < d) :
    (ckptStep tol d s).best_dev = d ∧
    (ckptStep tol d s).best_ps = (s.w1, s.w2) ∧
    (ckptStep tol d s).patience = 0 := by
  simp only [ckptStep, if_pos h]
  split <;> simp

theorem ckptStep_stall (tol : ℤ) (d : ℚ) (s : LoopState)
    (h : ¬ s.best_dev < d) :
    (ckptStep tol d s).best_dev = s.best_dev ∧
    (ckptStep tol d s).best_ps = s.best_ps ∧
    ((¬ (0 ≤ tol ∧ tol ≤ (s.patience : ℤ) + 1)) →
      (ckptStep tol d s).patience = s.patience + 1 ∧
      (ckptStep tol d s).w1 = s.w1 ∧ (ckptStep tol d s).w2 = s.w2) ∧
    ((0 ≤ tol ∧ tol ≤ (s.patience : ℤ) + 1) →
      (ckptStep tol d s).w1 = s.best_ps.1 ∧
      (ckptStep tol d s).w2 = s.best_ps.2 ∧
      (ckptStep tol d s).patience = 0) := by
  simp only [ckptStep, if_neg h]
  by_cases hc : 0 ≤ tol ∧ tol ≤ (s.patience : ℤ) + 1
  · simp [hc]
  · simp [hc]

/-- C3: patience rollback.  For the dev-score sequence `[0.5, 0.4, 0.3]` at
successive validations with `tolerance = 2` (starting from the loop's
initial `best_dev = 0`, `patience = 0`, with arbitrary weight updates in
between), after the third validation both weights equal the weights current
at the first (best) score and patience is 0.  More generally: a new best
records the current weights, the score, and resets patience to 0; a
non-improving validation increments patience, and when the incremented
patience reaches a tolerance `>= 0` both weights are forced back to the
recorded best pair and patience resets to 0. -/
theorem patience_rollback (a1 a2 b1 b2 c1 c2 q1 q2 : String) (pen : ℚ)
    (tr : List (ℕ × ℚ)) (wtr : List String) :
    (let s0 : LoopState :=
      { w1 := a1
        w2 := a2
        best_dev := 0
        best_ps := (q1, q2)
        patience := 0
        logp_penalty_cur := pen
        penaltyTrace := tr
        w1Trace := wtr }
     let s3 := ckptStep 2 (3/10) (setWeights c1 c2
        (ckptStep 2 (2/5) (setWeights b1 b2 (ckptStep 2 (1/2) s0))))
     s3.w1 = a1 ∧ s3.w2 = a2 ∧ s3.patience = 0) ∧
    (∀ (tol : ℤ) (d : ℚ) (s : LoopState), s.best_dev < d →
      (ckptStep tol d s).best_dev = d ∧
      (ckptStep tol d s).best_ps = (s.w1, s.w2) ∧
      (ckptStep tol d s).patience = 0) ∧
    (∀ (tol : ℤ) (d : ℚ) (s : LoopState), ¬ s.best_dev < d →
      ((¬ (0 ≤ tol ∧ tol ≤ (s.patience : ℤ) + 1)) →
        (ckptStep tol d s).patience = s.patience + 1 ∧
        (ckptStep tol d s).w1 = s.w1 ∧ (ckptStep tol d s).w2 = s.w2 ∧
        (ckptStep tol d s).best_ps = s.best_ps) ∧
      ((0 ≤ tol ∧ tol ≤ (s.patience : ℤ) + 1) →
        (ckptStep tol d s).w1 = s.best_ps.1 ∧
        (ckptStep tol d s).w2 = s.best_ps.2 ∧
        (ckptStep tol d s).patience = 0)) := by
  refine ⟨?_, ?_, ?_⟩
  · simp only [ckptStep, setWeights]
    norm_num
  · intro tol d s h
    exact ckptStep_improve tol d s h
  · intro tol d s h
    have hs := ckptStep_stall tol d s h
    exact ⟨fun hn => ⟨(hs.2.2.1 hn).1, (hs.2.2.1 hn).2.1, (hs.2.2.1 hn).2.2, hs.2.1⟩,
      hs.2.2.2⟩

/-- Witness for C3 at concrete inputs: one improving validation from
`best_dev = 0`, one non-improving validation with rollback disabled, and one
non-improving validation that triggers rollback. -/
theorem patience_rollback_witness :
    ((0 : ℚ) < 1 ∧
      (ckptStep (-1) 1 { w1 := "x", w2 := "y", best_dev := 0, best_ps := ("p", "q"), patience := 0, logp_penalty_cur := 0, penaltyTrace := [], w1Trace := [] }).best_ps = ("x", "y")) ∧
    (¬ (1 : ℚ) < 0 ∧
      (ckptStep (-1) 0 { w1 := "x", w2 := "y", best_dev := 1, best_ps := ("p", "q"), patience := 0, logp_penalty_cur := 0, penaltyTrace := [], w1Trace := [] }).patience = 1) ∧
    ((ckptStep 1 0 { w1 := "x", w2 := "y", best_dev := 1, best_ps := ("p", "q"), patience := 0, logp_penalty_cur := 0, penaltyTrace := [], w1Trace := [] }).w1 = "p" ∧
      (ckptStep 1 0 { w1 := "x", w2 := "y", best_dev := 1, best_ps := ("p", "q"), patience := 0, logp_penalty_cur := 0, penaltyTrace := [], w1Trace := [] }).patience = 0) := by
  have h := patience_rollback "a1" "a2" "b1" "b2" "c1" "c2" "q1" "q2" 0 [] []
  refine ⟨⟨zero_lt_one, ?_⟩, ⟨not_lt.mpr zero_le_one, ?_⟩, ?_, ?_⟩
  · exact (h.2.1 (-1) 1 _ zero_lt_one).2.1
  · exact ((h.2.2 (-1) 0 _ (not_lt.mpr zero_le_one)).1 (by decide)).1
  · exact ((h.2.2 1 0 _ (not_lt.mpr zero_le_one)).2 (by decide)).1
  · exact ((h.2.2 1 0 _ (not_lt.mpr zero_le_one)).2 (by decide)).2.2

/-- C4: terminal checkpoint reload.  In every run (any configuration, score
sequence and proposal oracle), after the loop ends `main` sets both layers'
weights back to the recorded best pair, so the final test evaluation runs
with exactly the loop's `best_ps`, regardless of the patience/tolerance
state at the end. -/
theorem terminal_reload_best (cfg : Config) (devScore : ℕ → ℚ)
    (raw : ℕ → String → String → String × String) (p1 p2 : String) :
    (mainRun cfg devScore raw p1 p2).w1 =
      (runLoop cfg devScore raw p1 p2).best_ps.1 ∧
    (mainRun cfg devScore raw p1 p2).w2 =
      (runLoop cfg devScore raw p1 p2).best_ps.2 ∧
    (mainRun cfg devScore raw p1 p2).best_ps =
      (runLoop cfg devScore raw p1 p2).best_ps := by
  refine ⟨?_, ?_, ?_⟩ <;> simp [mainRun, setWeights]

theorem ckptStep_penaltyTrace (tol : ℤ) (d : ℚ) (s : LoopState) :
    (ckptStep tol d s).penaltyTrace = s.penaltyTrace := by
  by_cases hA : s.best_dev < d
  · simp only [ckptStep, if_pos hA]
    split <;> rfl
  · simp only [ckptStep, if_neg hA]
    split <;> rfl

theorem runIters_penaltyTrace (cfg : Config) (devScore : ℕ → ℚ)
    (raw : ℕ → String → String → String × String)
    (hdec : cfg.decay_logp_penalty = true) :
    ∀ (ts : List ℕ) (s : LoopState),
      (∀ t ∈ ts, t < cfg.iters + 1) →
      (∀ e ∈ s.penaltyTrace,
        e.2 = cfg.logp_penalty * (1 - (e.1 : ℚ) / (cfg.iters : ℚ)) ∧
        e.1 < cfg.iters) →
      ∀ e ∈ (runIters cfg devScore raw ts s).penaltyTrace,
        e.2 = cfg.logp_penalty * (1 - (e.1 : ℚ) / (cfg.iters : ℚ)) ∧
        e.1 < cfg.iters := by
  intro ts
  induction ts with
  | nil => intro s _ hs; exact hs
  | cons t ts ih =>
    intro s hts hs
    have hs1 : ∀ e ∈ (if valCond cfg t then
        ckptStep cfg.tolerance (devScore t) s else s).penaltyTrace,
        e.2 = cfg.logp_penalty * (1 - (e.1 : ℚ) / (cfg.iters : ℚ)) ∧
        e.1 < cfg.iters := by
      by_cases hv : valCond cfg t
      · simp only [if_pos hv, ckptStep_penaltyTrace]; exact hs
      · simp only [if_neg hv]; exact hs
    simp only [runIters]
    by_cases hb : breakCond cfg t
    · simp only [if_pos hb]; exact hs1
    · simp only [if_neg hb]
      apply ih
      · intro u hu
        exact hts u (List.mem_cons_of_mem t hu)
      · intro e he
        have hlt : t < cfg.iters := by
          have h1 : t < cfg.iters + 1 := hts t (List.mem_cons_self t ts)
          have h2 : t ≠ cfg.iters := by
            intro hteq
            exact hb (by simp [breakCond, hteq])
          omega
        simp only [trainPhase, setWeights, hdec, if_true, List.mem_append,
          List.mem_singleton] at he
        rcases he with he | he
        · exact hs1 e he
        · rw [he]
          exact ⟨rfl, hlt⟩

/-- The concrete configuration of the C5 counterexample run:
`decay_logp_penalty` on, `logp_penalty = 1`, `iters = 1`, all break/validation
options off. -/
def cfgC : Config :=
  { iters := 1, val_freq := 2, tolerance := -1, n_shots := -1,
    do_first_eval := false, do_zero_shot := false, cost_only := false,
    train_p1 := true, train_p2 := true, one_layer := false,
    logp_penalty := 1, decay_logp_penalty := true }

/-- C5 counterexample: in a run with `decay_logp_penalty` enabled,
`logp_penalty = 1` and `iters = 1`, exactly one training iteration executes
(`t = 0`, since the loop breaks at `iteration == iters` before the decay
assignment), and its applied penalty is `1`, not `0`: the decayed penalty is
nonzero at the last training iteration actually executed. -/
theorem logp_penalty_not_zero :
    (runLoop cfgC (fun _ => 0) (fun _ w1 w2 => (w1, w2)) "p" "q").penaltyTrace
      = [(0, 1)] ∧ (1 : ℚ) ≠ 0 := by
  have hrange : List.range (cfgC.iters + 1) = [0, 1] := by decide
  have hv0 : valCond cfgC 0 = false := by decide
  have hv1 : valCond cfgC 1 = false := by decide
  have hb0 : breakCond cfgC 0 = false := by decide
  have hb1 : breakCond cfgC 1 = true := by decide
  constructor
  · rw [runLoop, hrange]
    simp only [runIters, hv0, hv1, hb0, hb1, if_true, if_false,
      Bool.false_eq_true, if_neg, ite_false, ite_true]
    norm_num [trainPhase, setWeights, modelForwardPrompts, initState, cfgC]
  · norm_num

/-- C5 (amended): when `decay_logp_penalty` is enabled, the penalty in effect
at each executed training iteration `t` equals
`logp_penalty * (1 - t / iters)`; every executed training iteration has
`t < iters` — the schedule's zero point `t = iters` is reached only by the
loop iteration that breaks before training — so the applied penalty decays
linearly but its final applied value is `logp_penalty / iters`, not zero. -/
theorem logp_penalty_decay (cfg : Config) (devScore : ℕ → ℚ)
    (raw : ℕ → String → String → String × String) (p1 p2 : String)
    (hdec : cfg.decay_logp_penalty = true) :
    ∀ e ∈ (runLoop cfg devScore raw p1 p2).penaltyTrace,
      e.2 = cfg.logp_penalty * (1 - (e.1 : ℚ) / (cfg.iters : ℚ)) ∧
      e.1 < cfg.iters := by
  apply runIters_penaltyTrace cfg devScore raw hdec
  · intro t ht
    exact List.mem_range.mp ht
  · intro e he
    simp [initState] at he

/-- Witness for the amended C5 theorem: in the concrete decaying run with
`iters = 1` and `logp_penalty = 1`, the recorded training call `(0, 1)`
satisfies the decay formula and happened strictly before iteration `iters`. -/
theorem logp_penalty_decay_witness :
    ((0, (1 : ℚ)) ∈
      (runLoop cfgC (fun _ => 0) (fun _ w1 w2 => (w1, w2)) "p" "q").penaltyTrace) ∧
    (1 : ℚ) = cfgC.logp_penalty * (1 - ((0 : ℕ) : ℚ) / ((cfgC.iters : ℕ) : ℚ)) ∧
    0 < cfgC.iters := by
  have hrange : List.range (cfgC.iters + 1) = [0, 1] := by decide
  have hv0 : valCond cfgC 0 = false := by decide
  have hv1 : valCond cfgC 1 = false := by decide
  have hb0 : breakCond cfgC 0 = false := by decide
  have hb1 : breakCond cfgC 1 = true := by decide
  have hmem : (0, (1 : ℚ)) ∈
      (runLoop cfgC (fun _ => 0) (fun _ w1 w2 => (w1, w2)) "p" "q").penaltyTrace := by
    rw [runLoop, hrange]
    simp only [runIters, hv0, hv1, hb0, hb1, if_true, if_false,
      Bool.false_eq_true, if_neg, ite_false, ite_true]
    norm_num [trainPhase, setWeights, modelForwardPrompts, initState, cfgC]
  have h := logp_penalty_decay cfgC (fun _ => 0) (fun _ w1 w2 => (w1, w2))
    "p" "q" rfl (0, 1) hmem
  exact ⟨hmem, h.1, h.2⟩

theorem ckptStep_w1_inv (tol : ℤ) (d : ℚ) (s : LoopState) (p1 : String)
    (hw : s.w1 = p1) (hb : s.best_ps.1 = p1)
    (ht : ∀ w ∈ s.w1Trace, w = p1) :
    (ckptStep tol d s).w1 = p1 ∧ (ckptStep tol d s).best_ps.1 = p1 ∧
    ∀ w ∈ (ckptStep tol d s).w1Trace, w = p1 := by
  by_cases hA : s.best_dev < d
  · simp only [ckptStep, if_pos hA]
    split
    · refine ⟨by simp [hw], by simp [hw], ?_⟩
      intro w hwm
      simp only [List.mem_append, List.mem_singleton] at hwm
      rcases hwm with hwm | hwm
      · exact ht w hwm
      · simpa [hw] using hwm
    · exact ⟨hw, by simp [hw], ht⟩
  · simp only [ckptStep, if_neg hA]
    split
    · refine ⟨by simp [hb], by simp [hb], ?_⟩
      intro w hwm
      simp only [List.mem_append, List.mem_singleton] at hwm
      rcases hwm with hwm | hwm
      · exact ht w hwm
      · simpa [hb] using hwm
    · exact ⟨hw, hb, ht⟩

theorem trainPhase_w1_inv (cfg : Config)
    (raw : ℕ → String → String → String × String) (t : ℕ) (s : LoopState)
    (p1 : String) (hol : cfg.one_layer = true)
    (hw : s.w1 = p1) (ht : ∀ w ∈ s.w1Trace, w = p1) :
    (trainPhase cfg raw t s).w1 = p1 ∧
    (trainPhase cfg raw t s).best_ps.1 = s.best_ps.1 ∧
    ∀ w ∈ (trainPhase cfg raw t s).w1Trace, w = p1 := by
  simp only [trainPhase, setWeights, modelForwardPrompts, hol, if_true]
  refine ⟨hw, by trivial, ?_⟩
  intro w hwm
  simp only [List.mem_append, List.mem_singleton] at hwm
  rcases hwm with hwm | hwm
  · exact ht w hwm
  · rw [hwm, hw]

theorem runIters_one_layer (cfg : Config) (devScore : ℕ → ℚ)
    (raw : ℕ → String → String → String × String) (p1 : String)
    (hol : cfg.one_layer = true) :
    ∀ (ts : List ℕ) (s : LoopState),
      s.w1 = p1 → s.best_ps.1 = p1 → (∀ w ∈ s.w1Trace, w = p1) →
      (runIters cfg devScore raw ts s).w1 = p1 ∧
      (runIters cfg devScore raw ts s).best_ps.1 = p1 ∧
      ∀ w ∈ (runIters cfg devScore raw ts s).w1Trace, w = p1 := by
  intro ts
  induction ts with
  | nil => intro s hw hb ht; exact ⟨hw, hb, ht⟩
  | cons t ts ih =>
    intro s hw hb ht
    have hs1 : (if valCond cfg t then
          ckptStep cfg.tolerance (devScore t) s else s).w1 = p1 ∧
        (if valCond cfg t then
          ckptStep cfg.tolerance (devScore t) s else s).best_ps.1 = p1 ∧
        ∀ w ∈ (if valCond cfg t then
          ckptStep cfg.tolerance (devScore t) s else s).w1Trace, w = p1 := by
      by_cases hv : valCond cfg t
      · simp only [if_pos hv]
        exact ckptStep_w1_inv cfg.tolerance (devScore t) s p1 hw hb ht
      · simp only [if_neg hv]
        exact ⟨hw, hb, ht⟩
    simp only [runIters]
    by_cases hbk : breakCond cfg t
    · simp only [if_pos hbk]
      exact hs1
    · simp only [if_neg hbk]
      have htr := trainPhase_w1_inv cfg raw t _ p1 hol hs1.1 hs1.2.2
      exact ih _ htr.1 (by rw [htr.2.1]; exact hs1.2.1) htr.2.2

/-- C7: single-layer frame property.  With `one_layer` set (so the model is
built with `two_layers=False` and `VILModel.forward` leaves the layer-1
prompt unchanged), layer-1's weight holds the initial `init_p1` at every
point of the run — every value it is ever assigned (training updates,
patience rollbacks and the terminal best reload) equals `init_p1` — and the
first component stored in `best_ps` is always that same `init_p1`; only
layer-2's weight ever changes. -/
theorem one_layer_l1_frame (cfg : Config) (devScore : ℕ → ℚ)
    (raw : ℕ → String → String → String × String) (p1 p2 : String)
    (hol : cfg.one_layer = true) :
    (∀ w ∈ (mainRun cfg devScore raw p1 p2).w1Trace, w = p1) ∧
    (mainRun cfg devScore raw p1 p2).w1 = p1 ∧
    (runLoop cfg devScore raw p1 p2).best_ps.1 = p1 := by
  have hrun := runIters_one_layer cfg devScore raw p1 hol
    (List.range (cfg.iters + 1)) (initState cfg p1 p2) rfl rfl
    (by intro w hwm; simpa [initState] using hwm)
  have hloop : (runLoop cfg devScore raw p1 p2).best_ps.1 = p1 := hrun.2.1
  refine ⟨?_, ?_, hloop⟩
  · intro w hwm
    simp only [mainRun, setWeights, List.mem_append, List.mem_singleton] at hwm
    rcases hwm with hwm | hwm
    · exact hrun.2.2 w hwm
    · rw [hwm]
      exact hloop
  · simp only [mainRun, setWeights]
    exact hloop

/-- Witness for C7: a concrete one-layer run whose proposal oracle suggests a
different layer-1 prompt, which is never taken up. -/
theorem one_layer_l1_frame_witness :
    (mainRun ⟨2, 2, 0, -1, true, false, false, true, true, true, 0, true⟩
      (fun _ => 1) (fun _ _ _ => ("other1", "other2")) "i1" "i2").w1 = "i1" := by
  exact (one_layer_l1_frame ⟨2, 2, 0, -1, true, false, false, true, true, true, 0, true⟩
    (fun _ => 1) (fun _ _ _ => ("other1", "other2")) "i1" "i2" rfl).2.1

theorem runIters_zero_scores (cfg : Config) (devScore : ℕ → ℚ)
    (raw : ℕ → String → String → String × String)
    (h : ∀ t, devScore t = 0) :
    ∀ (ts : List ℕ) (s : LoopState), s.best_dev = 0 →
      (runIters cfg devScore raw ts s).best_dev = 0 ∧
      (runIters cfg devScore raw ts s).best_ps = s.best_ps := by
  intro ts
  induction ts with
  | nil => intro s hs; exact ⟨hs, rfl⟩
  | cons t ts ih =>
    intro s hs
    have hnl : ¬ s.best_dev < devScore t := by
      rw [hs, h t]
      exact lt_irrefl 0
    have hs1 : (if valCond cfg t then
          ckptStep cfg.tolerance (devScore t) s else s).best_dev = 0 ∧
        (if valCond cfg t then
          ckptStep cfg.tolerance (devScore t) s else s).best_ps = s.best_ps := by
      by_cases hv : valCond cfg t
      · simp only [if_pos hv]
        have hst := ckptStep_stall cfg.tolerance (devScore t) s hnl
        exact ⟨by rw [hst.1, hs], hst.2.1⟩
      · simp only [if_neg hv]
        exact ⟨hs, by trivial⟩
    simp only [runIters]
    by_cases hbk : breakCond cfg t
    · simp only [if_pos hbk]
      exact hs1
    · simp only [if_neg hbk]
      have hrec := ih (trainPhase cfg raw t
        (if valCond cfg t then ckptStep cfg.tolerance (devScore t) s else s))
        (by simpa [trainPhase, setWeights] using hs1.1)
      refine ⟨hrec.1, ?_⟩
      rw [hrec.2]
      simpa [trainPhase, setWeights] using hs1.2

/-- C9: best-checkpoint selection compares with strict `>` against the
initial `best_dev = 0.0`, so in a run where every validation yields dev
accuracy exactly `0`, the recorded best pair is never replaced: it stays the
initial prompt pair `(init_p1, init_p2)`, and the final test evaluation runs
with those initial prompts as both weights. -/
theorem zero_scores_keep_init (cfg : Config) (devScore : ℕ → ℚ)
    (raw : ℕ → String → String → String × String) (p1 p2 : String)
    (h : ∀ t, devScore t = 0) :
    (runLoop cfg devScore raw p1 p2).best_ps = (p1, p2) ∧
    (runLoop cfg devScore raw p1 p2).best_dev = 0 ∧
    (mainRun cfg devScore raw p1 p2).w1 = p1 ∧
    (mainRun cfg devScore raw p1 p2).w2 = p2 := by
  have hrun := runIters_zero_scores cfg devScore raw h
    (List.range (cfg.iters + 1)) (initState cfg p1 p2) rfl
  have hbp : (runLoop cfg devScore raw p1 p2).best_ps = (p1, p2) := by
    rw [runLoop, hrun.2]
    rfl
  refine ⟨hbp, by rw [runLoop]; exact hrun.1, ?_, ?_⟩
  · simp only [mainRun, setWeights]
    rw [hbp]
  · simp only [mainRun, setWeights]
    rw [hbp]

/-- Witness for C9: a concrete run whose validations all score `0` ends with
the initial prompts as the test-time weights. -/
theorem zero_scores_keep_init_witness :
    (mainRun ⟨3, 2, 1, -1, false, false, false, true, true, false, 0, true⟩
      (fun _ => 0) (fun _ _ _ => ("A", "B")) "i1" "i2").w1 = "i1" ∧
    (mainRun ⟨3, 2, 1, -1, false, false, false, true, true, false, 0, true⟩
      (fun _ => 0) (fun _ _ _ => ("A", "B")) "i1" "i2").w2 = "i2" := by
  have h := zero_scores_keep_init ⟨3, 2, 1, -1, false, false, false, true, true, false, 0, true⟩
    (fun _ => 0) (fun _ _ _ => ("A", "B")) "i1" "i2" (fun t => rfl)
  exact ⟨h.2.2.1, h.2.2.2⟩

end ViDln
